import Mathlib

/-!
Shallow embedding of the `circulate` crate (a growable power-of-two ring
buffer plus a buffered-stream layer) and proofs about the claims of its
specification.

Modelling conventions:
* Machine integers (`usize`) are modelled as `Nat`.  The source guards every
  arithmetic operation against overflow (capacities are checked against
  `isize::MAX` before allocating, and cursor arithmetic is masked), so no
  wrap-around semantics are needed.
* The backing allocation is a `List (Option α)`; a `none` slot models an
  uninitialized slot of the raw allocation.
* Raw slices handed out by the buffer are modelled as `(start, length)`
  pairs indexing into the backing list.
* Element size is fixed to one byte-equivalent unit (non-zero-sized `T`);
  the zero-sized-element degenerate branch of `layout_for` is kept but can
  never fire for a non-zero-sized element.
* `pop`/`get` return `Option (Option α)`: the outer layer is the `Option`
  of the Rust signature (`none` = empty buffer), the inner layer is the
  slot content (`none` = the source would read uninitialized memory).
-/

namespace Circulate

/-- `Nat` counterpart of Rust's `usize::next_power_of_two` (smallest power of
two that is `≥ n`, with `0` and `1` both mapping to `1`), written with an
explicit fuel argument so that it is structurally recursive; `fuel = n`
suffices because `n < 2 ^ n`.  The loop mirrors `Nat.nextPowerOfTwo.go`. -/
def next_power_of_two_go (n : Nat) : Nat → Nat → Nat
  | 0, power => power
  | fuel + 1, power => if power < n then next_power_of_two_go n fuel (power * 2) else power

/-- Rust's `usize::next_power_of_two`. -/
def next_power_of_two (n : Nat) : Nat :=
  next_power_of_two_go n n 1

/-- `RingBuffer::layout_for` (src/ring_buffer.rs:300-322) specialised to a
non-zero-sized element type: returns the number of slots of the allocation
(`layout.size() / size_of::<T>()`), or `none` when no allocation is made.
The source rounds the requested capacity up to the next power of two and
then sizes the allocation for at least two slots
(`capacity.max(2) * size_of::<T>()`); the `capacity == 0` early return is
kept although `next_power_of_two` never returns `0`.  The
capacity-overflow panic guard is not modelled (`Nat` does not overflow). -/
def layout_for (capacity : Nat) : Option Nat :=
  let capacity := next_power_of_two capacity
  if capacity = 0 then none
  else some (max capacity 2)

/-- The heap-allocated circular buffer (src/ring_buffer.rs:18-27).
`data` is the backing allocation (`none` = uninitialized slot), `capacity`
the slot count of the allocation, `read`/`write` the cursor indices. -/
structure RingBuffer (α : Type) where
  data : List (Option α)
  capacity : Nat
  read : Nat
  write : Nat
deriving Repr, DecidableEq

namespace RingBuffer

/-- `RingBuffer::new` (src/ring_buffer.rs:29-37): dangling pointer, zero
capacity, both cursors zero. -/
def new {α : Type} : RingBuffer α :=
  { data := [], capacity := 0, read := 0, write := 0 }

/-- `RingBuffer::alloc` (src/ring_buffer.rs:38-49): fresh allocation of
`layout.size() / size_of::<T>()` uninitialized slots, or the dangling
empty allocation when `layout_for` declines. -/
def alloc (α : Type) (capacity : Nat) : List (Option α) × Nat :=
  match layout_for capacity with
  | some slots => (List.replicate slots (none : Option α), slots)
  | none => ([], 0)

/-- `RingBuffer::with_capacity` (src/ring_buffer.rs:51-60). -/
def with_capacity (α : Type) (capacity : Nat) : RingBuffer α :=
  let a := alloc α capacity
  { data := a.1, capacity := a.2, read := 0, write := 0 }

/-- `RingBuffer::mask` (src/ring_buffer.rs:150-153): `capacity.saturating_sub(1)`,
which on `Nat` is plain truncated subtraction. -/
def mask {α : Type} (s : RingBuffer α) : Nat :=
  s.capacity - 1

/-- `RingBuffer::empty` (src/ring_buffer.rs:116-118). -/
def empty {α : Type} (s : RingBuffer α) : Bool :=
  s.read == s.write

/-- `RingBuffer::full` (src/ring_buffer.rs:120-122). -/
def full {α : Type} (s : RingBuffer α) : Bool :=
  ((s.write + 1) &&& s.mask) == s.read

/-- `RingBuffer::len` (src/ring_buffer.rs:125-131). -/
def len {α : Type} (s : RingBuffer α) : Nat :=
  if s.read ≤ s.write then s.write - s.read else s.capacity - (s.read - s.write)

/-- `RingBuffer::set_read_cursor` (src/ring_buffer.rs:138-140). -/
def set_read_cursor {α : Type} (s : RingBuffer α) (count : Nat) : RingBuffer α :=
  { s with read := (s.read + count) &&& s.mask }

/-- `RingBuffer::set_write_cursor` (src/ring_buffer.rs:146-148). -/
def set_write_cursor {α : Type} (s : RingBuffer α) (count : Nat) : RingBuffer α :=
  { s with write := (s.write + count) &&& s.mask }

/-- `RingBuffer::read_ptr` (src/ring_buffer.rs:158-165): the physical slot
index the returned pointer refers to. -/
def read_ptr {α : Type} (s : RingBuffer α) (index : Nat) : Nat :=
  (s.read + index) &&& s.mask

/-- Dereference a physical slot of the allocation.  Out-of-allocation
indices yield `none`, the model of uninitialized memory. -/
def cell {α : Type} (s : RingBuffer α) (i : Nat) : Option α :=
  s.data.getD i none

/-- `RingBuffer::get` (src/ring_buffer.rs:167-176).  The outer `Option` is
the Rust result; the inner `Option α` is the content of the referenced
slot. -/
def get {α : Type} (s : RingBuffer α) (index : Nat) : Option (Option α) :=
  if s.empty then none
  else some (s.cell (s.read_ptr index))

/-- `RingBuffer::get_mut` (src/ring_buffer.rs:177-186): same computation as
`get` with a mutable reference. -/
def get_mut {α : Type} (s : RingBuffer α) (index : Nat) : Option (Option α) :=
  if s.empty then none
  else some (s.cell (s.read_ptr index))

/-- `RingBuffer::as_mut_slices` (src/ring_buffer.rs:235-247) as two
`(start, length)` views into `data`. -/
def as_mut_slices {α : Type} (s : RingBuffer α) : (Nat × Nat) × (Nat × Nat) :=
  if s.read < s.write then
    ((s.read, s.write - s.read), (0, 0))
  else
    ((s.read, s.capacity - s.read), (0, s.write))

/-- `RingBuffer::spare_capacity_mut` (src/ring_buffer.rs:249-276) as two
`(start, length)` views into `data`.  `saturating_sub` is `Nat`
subtraction. -/
def spare_capacity_mut {α : Type} (s : RingBuffer α) : (Nat × Nat) × (Nat × Nat) :=
  if s.read < s.write then
    ((s.write, s.capacity - s.write), (0, s.read - 1))
  else
    ((s.write, (s.read - s.write) - 1), (0, 0))

/-- Materialise a `(start, length)` view of an allocation as the list of
slot contents (the bytes a consumer of the slice would observe). -/
def sliceOf {α : Type} (data : List (Option α)) (v : Nat × Nat) : List (Option α) :=
  (data.drop v.1).take v.2

/-- `RingBuffer::layout` (src/ring_buffer.rs:278-294) for a non-zero-sized
element: `none` exactly when there is no allocation. -/
def layout {α : Type} (s : RingBuffer α) : Option Nat :=
  if s.capacity = 0 then none else some s.capacity

/-- `RingBuffer::reserve` (src/ring_buffer.rs:63-100): allocate the new
buffer, copy the (up to two) occupied views contiguously to its start,
install the new allocation and capacity.  Note that the source leaves
`read` and `write` untouched. -/
def reserve {α : Type} (s : RingBuffer α) (count : Nat) : RingBuffer α :=
  match layout_for (s.capacity + count) with
  | none => s
  | some slots =>
    match s.layout with
    | none =>
      -- No previous allocation: just install the new one.
      { s with data := List.replicate slots (none : Option α), capacity := slots }
    | some _ =>
      let v := s.as_mut_slices
      let copied := sliceOf s.data v.1 ++ sliceOf s.data v.2
      { s with
          data := copied ++ List.replicate (slots - copied.length) (none : Option α),
          capacity := slots }

/-- `RingBuffer::push` (src/ring_buffer.rs:210-219). -/
def push {α : Type} (s : RingBuffer α) (value : α) : RingBuffer α :=
  let s := if s.full then s.reserve 1 else s
  let s := { s with data := s.data.set s.write (some value) }
  { s with write := (s.write + 1) &&& s.mask }

/-- `RingBuffer::pop` (src/ring_buffer.rs:221-233).  The outer `Option` is
the Rust result (`none` = buffer empty); the inner `Option α` is the slot
content handed back by value. -/
def pop {α : Type} (s : RingBuffer α) : Option (Option α) × RingBuffer α :=
  if s.empty then (none, s)
  else
    let read := s.read
    let t := { s with read := (s.read + 1) &&& s.mask }
    (some (s.cell read), t)

/-- The logical contents of the buffer in pop order (the sequence of slots
`read_ptr 0`, `read_ptr 1`, …, `read_ptr (len - 1)`). -/
def toList {α : Type} (s : RingBuffer α) : List (Option α) :=
  (List.range s.len).map (fun i => s.cell (s.read_ptr i))

/-- Write a run of values into consecutive physical slots starting at
`start` (the model of a caller memcpy-ing into a slice view). -/
def write_cells {α : Type} (data : List (Option α)) (start : Nat) :
    List α → List (Option α)
  | [] => data
  | b :: rest => write_cells (data.set start (some b)) (start + 1) rest

/-- A producer following the spare-capacity protocol: write `values` into
the first spare view and then, once it is exhausted, into the second spare
view.  (The cursor advance is a separate `set_write_cursor` call, exactly
as in `BufStream::buffer_read`.) -/
def write_spare {α : Type} (s : RingBuffer α) (values : List α) : RingBuffer α :=
  let v := s.spare_capacity_mut
  let n1 := min values.length v.1.2
  let data := write_cells s.data v.1.1 (values.take n1)
  let data := write_cells data v.2.1 ((values.drop n1).take v.2.2)
  { s with data := data }

end RingBuffer

/-- A single push or pop instruction, used to quantify over operation
sequences. -/
inductive Op (α : Type) where
  | push (a : α)
  | pop
deriving Repr, DecidableEq

/-- Execute one instruction. -/
def applyOp {α : Type} (s : RingBuffer α) : Op α → RingBuffer α
  | Op.push a => s.push a
  | Op.pop => (s.pop).2

/-- Execute a sequence of instructions. -/
def runOps {α : Type} (s : RingBuffer α) : List (Op α) → RingBuffer α
  | [] => s
  | op :: rest => runOps (applyOp s op) rest

/-- Number of `push` instructions in a sequence. -/
def countPushes {α : Type} : List (Op α) → Nat
  | [] => 0
  | Op.push _ :: rest => countPushes rest + 1
  | Op.pop :: rest => countPushes rest

/-- Number of `pop` instructions that return an element (pops on an empty
buffer return nothing and remove nothing). -/
def countPops {α : Type} (s : RingBuffer α) : List (Op α) → Nat
  | [] => 0
  | Op.push a :: rest => countPops (s.push a) rest
  | Op.pop :: rest => (if s.empty then 0 else 1) + countPops (s.pop).2 rest

/-- The pop results of draining a buffer `n` times (outer option as in
`pop`). -/
def drain {α : Type} (s : RingBuffer α) : Nat → List (Option (Option α))
  | 0 => []
  | n + 1 => (s.pop).1 :: drain (s.pop).2 n

/-!
The IO layer (src/io.rs).  Byte values are modelled as `Nat`; a transport
error type stays abstract where the source is generic.
-/

/-- The provided (default) body of `Read::read_vectored`
(src/io.rs:16-22): one `read` per destination region, in order,
accumulating the counts, stopping only when a `read` fails.  It is generic
over the reader: `read s n` performs a single read of a region of length
`n` in reader state `s`. -/
def read_vectored_default {σ ε : Type} (read : σ → Nat → Except ε (Nat × σ)) :
    σ → List Nat → Except ε (Nat × σ)
  | s, [] => Except.ok (0, s)
  | s, n :: rest =>
    match read s n with
    | Except.error e => Except.error e
    | Except.ok (k, s') =>
      match read_vectored_default read s' rest with
      | Except.error e => Except.error e
      | Except.ok (t, s'') => Except.ok (k + t, s'')

/-- Modelled from the spec's words for the C8 comparison ("sequential
single reads into the destination regions in order"): issue one read per
region unconditionally and sum the counts, for an infallible reader. -/
def seq_read_all {σ : Type} (f : σ → Nat → Nat × σ) : σ → List Nat → Nat × σ
  | s, [] => (0, s)
  | s, n :: rest =>
    let r := f s n
    let t := seq_read_all f r.2 rest
    (r.1 + t.1, t.2)

/-- A fake transport for the `BufferedStream.read` scenario: each `read`
call yields the next queued chunk (truncated to the destination length). -/
structure FakeStream where
  chunks : List (List Nat)
deriving Repr, DecidableEq

/-- One `Read::read` call of the fake transport: returns the bytes placed
into a destination region of length `destLen`. -/
def FakeStream.read (t : FakeStream) (destLen : Nat) : List Nat × FakeStream :=
  match t.chunks with
  | [] => ([], t)
  | c :: rest => (c.take destLen, { chunks := rest })

/-- `BufStream` (src/io.rs:36-40) over the fake transport. -/
structure BufStream where
  stream : FakeStream
  input : RingBuffer Nat
  output : RingBuffer Nat
deriving Repr, DecidableEq

namespace BufStream

/-- `BufStream::new` (src/io.rs:42-48). -/
def new (stream : FakeStream) : BufStream :=
  { stream := stream
    input := RingBuffer.with_capacity Nat 0
    output := RingBuffer.with_capacity Nat 0 }

/-- `BufStream::with_capacity` (src/io.rs:51-57). -/
def with_capacity (stream : FakeStream) (capacity : Nat) : BufStream :=
  { stream := stream
    input := RingBuffer.with_capacity Nat capacity
    output := RingBuffer.with_capacity Nat capacity }

/-- The `parts` computation of `BufStream::buffer_read` (src/io.rs:64-68):
how many of the two spare views are passed to the transport's vectored
read. -/
def spare_parts (s : RingBuffer Nat) : Nat :=
  let v := s.spare_capacity_mut
  match v.1.2, v.2.2 with
  | 0, 0 => 0
  | _, 0 => 1
  | _, _ => 2

/-- The transport's vectored read writing through the handed-out region
views directly into the ring allocation (the default `read_vectored` of
src/io.rs:16-22 instantiated with `FakeStream.read`, where each region is
a `(start, length)` view of `data`).  Returns the total count, the updated
allocation and the updated transport. -/
def fill_regions (t : FakeStream) (data : List (Option Nat)) :
    List (Nat × Nat) → Nat × List (Option Nat) × FakeStream
  | [] => (0, data, t)
  | v :: rest =>
    let r := t.read v.2
    let data' := RingBuffer.write_cells data v.1 r.1
    let res := fill_regions r.2 data' rest
    (r.1.length + res.1, res.2)

/-- `BufStream::buffer_read` (src/io.rs:59-82): grow if full, obtain the
spare views, vectored-read into the first `parts` of them, advance the
write cursor by the transport's count, grow again if now full.  The fake
transport never fails, so the `Result` layer is omitted. -/
def buffer_read (b : BufStream) : BufStream :=
  let input := if b.input.full then b.input.reserve 1 else b.input
  let v := input.spare_capacity_mut
  let parts := spare_parts input
  let regions := List.take parts [v.1, v.2]
  let r := fill_regions b.stream input.data regions
  let input := { input with data := r.2.1 }
  let input := input.set_write_cursor r.1
  let input := if input.full then input.reserve 1 else input
  { b with stream := r.2.2, input := input }

/-- `BufStream::read_into` (src/io.rs:84-102): copy from the occupied
views into a caller buffer of length `destLen`, advance the read cursor by
the copied count.  Returns the copied bytes, the count and the new state. -/
def read_into (b : BufStream) (destLen : Nat) :
    List (Option Nat) × Nat × BufStream :=
  let v := b.input.as_mut_slices
  let lhs_len := min destLen v.1.2
  let rhs_len := min (destLen - lhs_len) v.2.2
  let total_len := lhs_len + rhs_len
  let bytes := RingBuffer.sliceOf b.input.data (v.1.1, lhs_len) ++
               RingBuffer.sliceOf b.input.data (v.2.1, rhs_len)
  let input := b.input.set_read_cursor total_len
  (bytes, total_len, { b with input := input })

/-- `<BufStream as Read>::read` (src/io.rs:106-110): refill then drain. -/
def read (b : BufStream) (destLen : Nat) : List (Option Nat) × Nat × BufStream :=
  (b.buffer_read).read_into destLen

end BufStream

/-- States reachable through the public constructors and the `push`/`pop`
operations. -/
inductive Reachable {α : Type} : RingBuffer α → Prop
  | new_ : Reachable RingBuffer.new
  | with_capacity (n : Nat) : Reachable (RingBuffer.with_capacity α n)
  | push {s : RingBuffer α} (a : α) : Reachable s → Reachable (s.push a)
  | pop {s : RingBuffer α} : Reachable s → Reachable (s.pop).2

/-- Structural well-formedness of a buffer state: the allocation matches
the stored capacity, and either the buffer is unallocated with both
cursors at zero, or the capacity is a power of two of at least two and
both cursors are in range. -/
def Wf {α : Type} (s : RingBuffer α) : Prop :=
  s.data.length = s.capacity ∧
  ((s.capacity = 0 ∧ s.read = 0 ∧ s.write = 0) ∨
   ((∃ k, 0 < k ∧ s.capacity = 2 ^ k) ∧ s.read < s.capacity ∧ s.write < s.capacity))

/-- A fallible reader over a queue of chunk sizes: each read consumes the
next chunk and reports `min chunkSize destLen` bytes (used to exhibit a
read that fills its region only partially). -/
def sized_read : List Nat → Nat → Except Unit (Nat × List Nat) :=
  fun chunks destLen =>
    match chunks with
    | [] => Except.ok (0, [])
    | c :: rest => Except.ok (min c destLen, rest)

/-- The bytes of `b"hello"`. -/
def hello_chunk : List Nat := [104, 101, 108, 108, 111]

/-- The bytes of `b" world"`. -/
def world_chunk : List Nat := [32, 119, 111, 114, 108, 100]

/-!  Helper lemmas. -/

theorem next_power_of_two_go_isPow (n : Nat) :
    ∀ (fuel power : Nat), (∃ j, power = 2 ^ j) →
      ∃ j, next_power_of_two_go n fuel power = 2 ^ j := by
  intro fuel
  induction fuel with
  | zero => intro power h; exact h
  | succ fuel ih =>
    intro power h
    obtain ⟨j, rfl⟩ := h
    unfold next_power_of_two_go
    split
    · exact ih (2 ^ j * 2) ⟨j + 1, by rw [pow_succ]⟩
    · exact ⟨j, rfl⟩

theorem next_power_of_two_go_ge (n : Nat) :
    ∀ (fuel power : Nat), n ≤ power * 2 ^ fuel →
      n ≤ next_power_of_two_go n fuel power := by
  intro fuel
  induction fuel with
  | zero => intro power h; simpa using h
  | succ fuel ih =>
    intro power h
    unfold next_power_of_two_go
    split
    · exact ih (power * 2) (by rw [mul_assoc, ← pow_succ']; exact h)
    · omega

theorem next_power_of_two_isPow (n : Nat) :
    ∃ j, next_power_of_two n = 2 ^ j :=
  next_power_of_two_go_isPow n n 1 ⟨0, rfl⟩

theorem next_power_of_two_ge (n : Nat) : n ≤ next_power_of_two n :=
  next_power_of_two_go_ge n n 1 (by simpa using Nat.le_of_lt (Nat.lt_two_pow n))

theorem next_power_of_two_pos (n : Nat) : 0 < next_power_of_two n := by
  obtain ⟨j, h⟩ := next_power_of_two_isPow n
  rw [h]; exact Nat.pos_pow_of_pos j (by decide)

theorem layout_for_eq (n : Nat) :
    layout_for n = some (max (next_power_of_two n) 2) := by
  unfold layout_for
  simp [Nat.ne_of_gt (next_power_of_two_pos n)]

theorem alloc_cap_isPow (n : Nat) :
    ∃ k, 0 < k ∧ max (next_power_of_two n) 2 = 2 ^ k := by
  obtain ⟨j, h⟩ := next_power_of_two_isPow n
  rcases Nat.eq_zero_or_pos j with hj | hj
  · subst hj
    exact ⟨1, by decide, by rw [h]; simp⟩
  · refine ⟨j, hj, ?_⟩
    rw [h]
    have : (2 : Nat) ≤ 2 ^ j := by
      calc (2 : Nat) = 2 ^ 1 := rfl
      _ ≤ 2 ^ j := Nat.pow_le_pow_right (by decide) hj
    omega

theorem alloc_cap_ge (n : Nat) : n ≤ max (next_power_of_two n) 2 :=
  le_trans (next_power_of_two_ge n) (le_max_left _ _)

theorem and_mask_of_pow {c : Nat} (h : ∃ k, c = 2 ^ k) (x : Nat) :
    x &&& (c - 1) = x % c := by
  obtain ⟨k, rfl⟩ := h
  exact Nat.and_pow_two_sub_one_eq_mod x k

theorem mod_double {x c : Nat} (_ : 0 < c) (h : x < 2 * c) :
    x % c = if x < c then x else x - c := by
  split
  · exact Nat.mod_eq_of_lt (by assumption)
  · rw [Nat.mod_eq_sub_mod (by omega)]
    exact Nat.mod_eq_of_lt (by omega)

theorem sliceOf_length {α : Type} (data : List (Option α)) (v : Nat × Nat) :
    (RingBuffer.sliceOf data v).length = min v.2 (data.length - v.1) := by
  simp [RingBuffer.sliceOf]

theorem wf_new {α : Type} : Wf (RingBuffer.new : RingBuffer α) :=
  ⟨rfl, Or.inl ⟨rfl, rfl, rfl⟩⟩

theorem with_capacity_eq (α : Type) (n : Nat) :
    RingBuffer.with_capacity α n =
      { data := List.replicate (max (next_power_of_two n) 2) (none : Option α),
        capacity := max (next_power_of_two n) 2, read := 0, write := 0 } := by
  unfold RingBuffer.with_capacity RingBuffer.alloc
  rw [layout_for_eq]

theorem wf_with_capacity (α : Type) (n : Nat) : Wf (RingBuffer.with_capacity α n) := by
  obtain ⟨k, hk, hMk⟩ := alloc_cap_isPow n
  have h2 : 2 ≤ max (next_power_of_two n) 2 := le_max_right _ _
  rw [with_capacity_eq]
  exact ⟨by simp, Or.inr ⟨⟨k, hk, by simpa using hMk⟩, by simp, by simp⟩⟩

theorem cap_two_le {α : Type} {s : RingBuffer α} (h : ∃ k, 0 < k ∧ s.capacity = 2 ^ k) :
    2 ≤ s.capacity := by
  obtain ⟨k, hk, hck⟩ := h
  have : (2 : Nat) ^ 1 ≤ 2 ^ k := Nat.pow_le_pow_right (by decide) hk
  simpa [hck] using this

theorem full_of_cap_zero {α : Type} {s : RingBuffer α}
    (hc : s.capacity = 0) (hr : s.read = 0) : s.full = true := by
  simp [RingBuffer.full, RingBuffer.mask, hc, hr]

theorem reserve_eq_none_alloc {α : Type} (s : RingBuffer α) (count : Nat)
    (hc : s.capacity = 0) :
    s.reserve count =
      { s with
          data := List.replicate (max (next_power_of_two (s.capacity + count)) 2)
            (none : Option α),
          capacity := max (next_power_of_two (s.capacity + count)) 2 } := by
  unfold RingBuffer.reserve
  rw [layout_for_eq]
  have h : s.layout = none := by simp [RingBuffer.layout, hc]
  rw [h]

theorem reserve_eq_copy {α : Type} (s : RingBuffer α) (count : Nat)
    (hc : s.capacity ≠ 0) :
    s.reserve count =
      { s with
          data := (RingBuffer.sliceOf s.data (s.as_mut_slices).1 ++
              RingBuffer.sliceOf s.data (s.as_mut_slices).2) ++
            List.replicate (max (next_power_of_two (s.capacity + count)) 2 -
              (RingBuffer.sliceOf s.data (s.as_mut_slices).1 ++
                RingBuffer.sliceOf s.data (s.as_mut_slices).2).length)
              (none : Option α),
          capacity := max (next_power_of_two (s.capacity + count)) 2 } := by
  unfold RingBuffer.reserve
  rw [layout_for_eq]
  have h : s.layout = some s.capacity := by simp [RingBuffer.layout, hc]
  rw [h]

theorem reserve_facts {α : Type} (s : RingBuffer α) (count : Nat) (wf : Wf s) :
    Wf (s.reserve count) ∧ (s.reserve count).read = s.read ∧
    (s.reserve count).write = s.write ∧
    s.capacity + count ≤ (s.reserve count).capacity ∧
    2 ≤ (s.reserve count).capacity := by
  obtain ⟨hlen, hcases⟩ := wf
  obtain ⟨k, hk, hMk⟩ := alloc_cap_isPow (s.capacity + count)
  have hMge : s.capacity + count ≤ max (next_power_of_two (s.capacity + count)) 2 :=
    alloc_cap_ge _
  have hM2 : 2 ≤ max (next_power_of_two (s.capacity + count)) 2 := le_max_right _ _
  rcases hcases with ⟨hc0, hr, hw⟩ | ⟨hpow, hr, hw⟩
  · rw [reserve_eq_none_alloc s count hc0]
    refine ⟨⟨?_, Or.inr ⟨⟨k, hk, hMk⟩, ?_, ?_⟩⟩, rfl, rfl, ?_, ?_⟩
    · show (List.replicate _ (none : Option α)).length = _
      simp
    · show s.read < max (next_power_of_two (s.capacity + count)) 2
      omega
    · show s.write < max (next_power_of_two (s.capacity + count)) 2
      omega
    · show s.capacity + count ≤ max (next_power_of_two (s.capacity + count)) 2
      omega
    · show (2 : Nat) ≤ max (next_power_of_two (s.capacity + count)) 2
      omega
  · have hcne : s.capacity ≠ 0 := by have := cap_two_le hpow; omega
    have hcop : (RingBuffer.sliceOf s.data (s.as_mut_slices).1 ++
        RingBuffer.sliceOf s.data (s.as_mut_slices).2).length ≤ s.capacity := by
      unfold RingBuffer.as_mut_slices
      split <;> simp only [List.length_append, sliceOf_length, hlen] <;> omega
    rw [reserve_eq_copy s count hcne]
    refine ⟨⟨?_, Or.inr ⟨⟨k, hk, hMk⟩, ?_, ?_⟩⟩, rfl, rfl, ?_, ?_⟩
    · show ((RingBuffer.sliceOf s.data (s.as_mut_slices).1 ++
          RingBuffer.sliceOf s.data (s.as_mut_slices).2) ++
          List.replicate (max (next_power_of_two (s.capacity + count)) 2 -
            (RingBuffer.sliceOf s.data (s.as_mut_slices).1 ++
              RingBuffer.sliceOf s.data (s.as_mut_slices).2).length)
            (none : Option α)).length =
        max (next_power_of_two (s.capacity + count)) 2
      rw [List.length_append, List.length_replicate]
      omega
    · show s.read < max (next_power_of_two (s.capacity + count)) 2
      omega
    · show s.write < max (next_power_of_two (s.capacity + count)) 2
      omega
    · show s.capacity + count ≤ max (next_power_of_two (s.capacity + count)) 2
      omega
    · show (2 : Nat) ≤ max (next_power_of_two (s.capacity + count)) 2
      omega

theorem push_eq {α : Type} (s : RingBuffer α) (a : α) :
    s.push a =
      { data := (if s.full then s.reserve 1 else s).data.set
          (if s.full then s.reserve 1 else s).write (some a),
        capacity := (if s.full then s.reserve 1 else s).capacity,
        read := (if s.full then s.reserve 1 else s).read,
        write := ((if s.full then s.reserve 1 else s).write + 1) &&&
          ((if s.full then s.reserve 1 else s).capacity - 1) } := rfl

theorem masked_succ {c : Nat} (hpow : ∃ k, c = 2 ^ k) {x : Nat} (hx : x < c) :
    (x + 1) &&& (c - 1) = if x + 1 = c then 0 else x + 1 := by
  have h1 : 0 < c := by obtain ⟨k, rfl⟩ := hpow; positivity
  rw [and_mask_of_pow hpow, mod_double h1 (by omega)]
  split <;> split <;> omega

theorem push_spec {α : Type} (s : RingBuffer α) (a : α) (wf : Wf s) :
    Wf (s.push a) ∧ (s.push a).len ≤ s.len + 1 := by
  cases hf : s.full with
  | true =>
    obtain ⟨⟨hlen1, hcases1⟩, hrd, hwr, hcap, h2⟩ := reserve_facts s 1 wf
    rcases hcases1 with ⟨hc0, -, -⟩ | ⟨hpow1, hr1, hw1⟩
    · omega
    · have hpow1' : ∃ k, (s.reserve 1).capacity = 2 ^ k := by
        obtain ⟨k, hk, h⟩ := hpow1; exact ⟨k, h⟩
      have hpush : s.push a =
          { data := (s.reserve 1).data.set (s.reserve 1).write (some a),
            capacity := (s.reserve 1).capacity,
            read := (s.reserve 1).read,
            write := ((s.reserve 1).write + 1) &&& ((s.reserve 1).capacity - 1) } := by
        rw [push_eq, if_pos hf]
      rw [hpush]
      refine ⟨⟨?_, Or.inr ⟨hpow1, hr1, ?_⟩⟩, ?_⟩
      · show ((s.reserve 1).data.set (s.reserve 1).write (some a)).length =
          (s.reserve 1).capacity
        simp [hlen1]
      · show ((s.reserve 1).write + 1) &&& ((s.reserve 1).capacity - 1) <
          (s.reserve 1).capacity
        rw [masked_succ hpow1' hw1]
        split <;> omega
      · show (if (s.reserve 1).read ≤ ((s.reserve 1).write + 1) &&&
            ((s.reserve 1).capacity - 1) then
            (((s.reserve 1).write + 1) &&& ((s.reserve 1).capacity - 1)) -
              (s.reserve 1).read
          else (s.reserve 1).capacity -
            ((s.reserve 1).read - (((s.reserve 1).write + 1) &&&
              ((s.reserve 1).capacity - 1)))) ≤ s.len + 1
        show _ ≤ (if s.read ≤ s.write then s.write - s.read
          else s.capacity - (s.read - s.write)) + 1
        rw [masked_succ hpow1' hw1, hrd, hwr]
        obtain ⟨hlen0, hcases0⟩ := wf
        rcases hcases0 with ⟨hc0, hr0, hw0⟩ | ⟨hpow0, hr0, hw0⟩
        · rw [hc0, hr0, hw0]
          split_ifs <;> omega
        · have hc2 := cap_two_le hpow0
          have hpow0' : ∃ k, s.capacity = 2 ^ k := by
            obtain ⟨k, hk, h⟩ := hpow0; exact ⟨k, h⟩
          have hfull : (s.write + 1) &&& (s.capacity - 1) = s.read := by
            have h := hf
            simp only [RingBuffer.full, RingBuffer.mask, beq_iff_eq] at h
            exact h
          rw [masked_succ hpow0' hw0] at hfull
          split at hfull <;> split_ifs <;> omega
  | false =>
    obtain ⟨hlen0, hcases0⟩ := wf
    rcases hcases0 with ⟨hc0, hr0, hw0⟩ | ⟨hpow0, hr0, hw0⟩
    · rw [full_of_cap_zero hc0 hr0] at hf
      cases hf
    · have hc2 := cap_two_le hpow0
      have hpow0' : ∃ k, s.capacity = 2 ^ k := by
        obtain ⟨k, hk, h⟩ := hpow0; exact ⟨k, h⟩
      have hnotfull : ¬ (s.write + 1) &&& (s.capacity - 1) = s.read := by
        have h := hf
        simp only [RingBuffer.full, RingBuffer.mask] at h
        simpa using h
      rw [masked_succ hpow0' hw0] at hnotfull
      have hpush : s.push a =
          { data := s.data.set s.write (some a),
            capacity := s.capacity,
            read := s.read,
            write := (s.write + 1) &&& (s.capacity - 1) } := by
        rw [push_eq, if_neg (by rw [hf]; exact Bool.false_ne_true)]
      rw [hpush]
      refine ⟨⟨?_, Or.inr ⟨hpow0, hr0, ?_⟩⟩, ?_⟩
      · show (s.data.set s.write (some a)).length = s.capacity
        simp [hlen0]
      · show (s.write + 1) &&& (s.capacity - 1) < s.capacity
        rw [masked_succ hpow0' hw0]
        split <;> omega
      · show (if s.read ≤ (s.write + 1) &&& (s.capacity - 1) then
            ((s.write + 1) &&& (s.capacity - 1)) - s.read
          else s.capacity - (s.read - ((s.write + 1) &&& (s.capacity - 1)))) ≤
          s.len + 1
        show _ ≤ (if s.read ≤ s.write then s.write - s.read
          else s.capacity - (s.read - s.write)) + 1
        rw [masked_succ hpow0' hw0]
        split at hnotfull <;> split_ifs <;> omega

theorem pop_spec {α : Type} (s : RingBuffer α) (wf : Wf s) :
    Wf (s.pop).2 ∧ (s.empty = true → s.pop = (none, s)) ∧
    (s.empty = false →
      (s.pop).1 = some (s.cell s.read) ∧
      (s.pop).2.read = (s.read + 1) &&& s.mask ∧
      (s.pop).2.write = s.write ∧ (s.pop).2.capacity = s.capacity ∧
      (s.pop).2.data = s.data ∧ (s.pop).2.len + 1 = s.len) := by
  cases he : s.empty with
  | true =>
    have hp : s.pop = (none, s) := by simp [RingBuffer.pop, he]
    rw [hp]
    exact ⟨wf, fun _ => rfl, fun h => nomatch h⟩
  | false =>
    have hp : s.pop = (some (s.cell s.read),
        { s with read := (s.read + 1) &&& s.mask }) := by
      simp [RingBuffer.pop, he]
    obtain ⟨hlen, hcases⟩ := wf
    rcases hcases with ⟨hc0, hr, hw⟩ | ⟨hpow, hr, hw⟩
    · simp [RingBuffer.empty, hr, hw] at he
    · have hc2 := cap_two_le hpow
      have hpow' : ∃ k, s.capacity = 2 ^ k := by
        obtain ⟨k, hk, h⟩ := hpow; exact ⟨k, h⟩
      have hmask : (s.read + 1) &&& s.mask =
          if s.read + 1 = s.capacity then 0 else s.read + 1 :=
        masked_succ hpow' hr
      have hne : s.read ≠ s.write := by
        simpa [RingBuffer.empty] using he
      rw [hp]
      refine ⟨⟨hlen, Or.inr ⟨hpow, ?_, hw⟩⟩, ?_,
        fun _ => ⟨rfl, rfl, rfl, rfl, rfl, ?_⟩⟩
      · show (s.read + 1) &&& s.mask < s.capacity
        rw [hmask]
        split <;> omega
      · exact fun h => nomatch h
      · show (if (s.read + 1) &&& s.mask ≤ s.write then
            s.write - ((s.read + 1) &&& s.mask)
          else s.capacity - (((s.read + 1) &&& s.mask) - s.write)) + 1 =
          s.len
        show _ = if s.read ≤ s.write then s.write - s.read
          else s.capacity - (s.read - s.write)
        rw [hmask]
        split_ifs <;> omega

theorem wf_reachable {α : Type} {s : RingBuffer α} (h : Reachable s) : Wf s := by
  induction h with
  | new_ => exact wf_new
  | with_capacity n => exact wf_with_capacity α n
  | push a _ ih => exact (push_spec _ a ih).1
  | pop _ ih => exact (pop_spec _ ih).1

theorem runOps_spec {α : Type} (ops : List (Op α)) :
    ∀ (s : RingBuffer α), Wf s →
      Wf (runOps s ops) ∧
      (runOps s ops).len + countPops s ops ≤ s.len + countPushes ops := by
  induction ops with
  | nil =>
    intro s hs
    exact ⟨hs, by simp [runOps, countPops, countPushes]⟩
  | cons op rest ih =>
    intro s hs
    cases op with
    | push a =>
      obtain ⟨hwf, hlen⟩ := push_spec s a hs
      obtain ⟨h1, h2⟩ := ih (s.push a) hwf
      refine ⟨h1, ?_⟩
      show (runOps (s.push a) rest).len + countPops (s.push a) rest ≤
        s.len + (countPushes rest + 1)
      omega
    | pop =>
      obtain ⟨hwf, hemp, hne⟩ := pop_spec s hs
      cases he : s.empty with
      | true =>
        have heq : (s.pop).2 = s := by rw [hemp he]
        obtain ⟨h1, h2⟩ := ih (s.pop).2 (show Wf (s.pop).2 by rw [heq]; exact hs)
        refine ⟨h1, ?_⟩
        show (runOps (s.pop).2 rest).len +
          ((if s.empty then 0 else 1) + countPops (s.pop).2 rest) ≤
          s.len + countPushes rest
        rw [he]
        have hlen2 : (s.pop).2.len = s.len := by rw [heq]
        simpa using by omega
      | false =>
        obtain ⟨-, -, -, -, -, hlen⟩ := hne he
        obtain ⟨h1, h2⟩ := ih (s.pop).2 hwf
        refine ⟨h1, ?_⟩
        show (runOps (s.pop).2 rest).len +
          ((if s.empty then 0 else 1) + countPops (s.pop).2 rest) ≤
          s.len + countPushes rest
        rw [he]
        simpa using by omega

theorem empty_iff_len {α : Type} (s : RingBuffer α) (wf : Wf s) :
    s.empty = true ↔ s.len = 0 := by
  obtain ⟨-, hcases⟩ := wf
  rcases hcases with ⟨hc0, hr, hw⟩ | ⟨hpow, hr, hw⟩
  · simp [RingBuffer.empty, RingBuffer.len, hc0, hr, hw]
  · simp only [RingBuffer.empty, beq_iff_eq, RingBuffer.len]
    split <;> omega

theorem full_iff_len {α : Type} (s : RingBuffer α) (wf : Wf s) :
    s.full = true ↔ s.len = s.capacity - 1 := by
  obtain ⟨-, hcases⟩ := wf
  rcases hcases with ⟨hc0, hr, hw⟩ | ⟨hpow, hr, hw⟩
  · simp [RingBuffer.full, RingBuffer.len, RingBuffer.mask, hc0, hr, hw]
  · have hcap2 : 2 ≤ s.capacity := cap_two_le hpow
    obtain ⟨k, hk, hck⟩ := hpow
    have hmask := and_mask_of_pow ⟨k, hck⟩ (s.write + 1)
    have hmod := mod_double (x := s.write + 1) (c := s.capacity) (by omega) (by omega)
    simp only [RingBuffer.full, RingBuffer.mask, beq_iff_eq, RingBuffer.len]
    rw [hmask, hmod]
    split <;> split <;> omega


/-- `buffer_read` on a freshly constructed stream: the empty input ring
offers no spare views, so the transport is never consulted and the state
is unchanged. -/
theorem buffer_read_new (t : FakeStream) :
    (BufStream.new t).buffer_read =
      { stream := t,
        input := { data := [none, none], capacity := 2, read := 0, write := 0 },
        output := { data := [none, none], capacity := 2, read := 0, write := 0 } } := by
  simp [BufStream.new, BufStream.buffer_read, BufStream.spare_parts, BufStream.fill_regions,
    RingBuffer.with_capacity, RingBuffer.alloc, layout_for, next_power_of_two,
    next_power_of_two_go, RingBuffer.full, RingBuffer.mask, RingBuffer.empty,
    RingBuffer.spare_capacity_mut, RingBuffer.set_write_cursor, RingBuffer.reserve]

/-!  Claim theorems. -/

/-- C1 (code_bug evaluation): the spare-capacity contract fails when
`read = 0 < write`.  On a capacity-4 buffer holding one element
(`read = 0`, `write = 1`), `spare_capacity_mut` reports views of total
length `k = 3` (the sentinel slot is only subtracted from the second,
already empty, view), and after writing 3 values across the views and
advancing the write cursor by 3 the cursors collide (`read = write`), so
the buffer reads back as empty: none of the 3 written elements (nor the
pre-existing one) is readable, instead of exactly the 3 written elements
being readable as the claim requires. -/
theorem c1_spare_capacity_contract_code_bug :
    ((RingBuffer.with_capacity Nat 3).push 10).len = 1 ∧
    ((RingBuffer.with_capacity Nat 3).push 10).capacity = 4 ∧
    ((((RingBuffer.with_capacity Nat 3).push 10).spare_capacity_mut).1.2 +
      (((RingBuffer.with_capacity Nat 3).push 10).spare_capacity_mut).2.2) = 3 ∧
    ((((RingBuffer.with_capacity Nat 3).push 10).write_spare
        [20, 30, 40]).set_write_cursor 3).data =
      [some 10, some 20, some 30, some 40] ∧
    ((((RingBuffer.with_capacity Nat 3).push 10).write_spare
        [20, 30, 40]).set_write_cursor 3).empty = true ∧
    ((((RingBuffer.with_capacity Nat 3).push 10).write_spare
        [20, 30, 40]).set_write_cursor 3).len = 0 ∧
    (((((RingBuffer.with_capacity Nat 3).push 10).write_spare
        [20, 30, 40]).set_write_cursor 3).pop).1 = none := by
  decide

/-- C2 (code_bug evaluation): `reserve` never resets the cursors.  On the
reachable state with `capacity = 4`, `read = 1`, `write = 0` (wrapped,
full, length 3), `reserve 1` copies the three live elements to offset 0
of the new capacity-8 allocation but leaves `read = 1` and `write = 0`
instead of the claimed `read = 0`, `write = 3`; consequently the buffer
still reports `full` after reserving (contradicting `reserve`'s own
documentation) and `len` jumps to 7. -/
theorem c2_reserve_cursor_code_bug :
    (runOps (RingBuffer.new : RingBuffer Nat)
      [Op.push 1, Op.push 2, Op.push 3, Op.pop, Op.push 4]).capacity = 4 ∧
    (runOps (RingBuffer.new : RingBuffer Nat)
      [Op.push 1, Op.push 2, Op.push 3, Op.pop, Op.push 4]).read = 1 ∧
    (runOps (RingBuffer.new : RingBuffer Nat)
      [Op.push 1, Op.push 2, Op.push 3, Op.pop, Op.push 4]).write = 0 ∧
    (runOps (RingBuffer.new : RingBuffer Nat)
      [Op.push 1, Op.push 2, Op.push 3, Op.pop, Op.push 4]).len = 3 ∧
    ((runOps (RingBuffer.new : RingBuffer Nat)
      [Op.push 1, Op.push 2, Op.push 3, Op.pop, Op.push 4]).reserve 1).capacity = 8 ∧
    ((runOps (RingBuffer.new : RingBuffer Nat)
      [Op.push 1, Op.push 2, Op.push 3, Op.pop, Op.push 4]).reserve 1).read = 1 ∧
    ((runOps (RingBuffer.new : RingBuffer Nat)
      [Op.push 1, Op.push 2, Op.push 3, Op.pop, Op.push 4]).reserve 1).write = 0 ∧
    ((runOps (RingBuffer.new : RingBuffer Nat)
      [Op.push 1, Op.push 2, Op.push 3, Op.pop, Op.push 4]).reserve 1).full = true ∧
    ((runOps (RingBuffer.new : RingBuffer Nat)
      [Op.push 1, Op.push 2, Op.push 3, Op.pop, Op.push 4]).reserve 1).len = 7 := by
  decide

/-- C3 (code_bug evaluation): FIFO order is not preserved across a growth
that happens while the occupied region wraps.  After
push 1, push 2, push 3, pop (returns 1), push 4, push 5 — the push of 5
finds the buffer full in the wrapped state `read = 1`, `write = 0`,
triggers the cursor-forgetting `reserve`, and ends with `read = write`
(the buffer reports empty); the next four pops all return nothing,
whereas FIFO requires them to return 2, 3, 4, 5. -/
theorem c3_fifo_code_bug :
    (runOps (RingBuffer.new : RingBuffer Nat)
      [Op.push 1, Op.push 2, Op.push 3, Op.pop, Op.push 4, Op.push 5]).empty = true ∧
    drain (runOps (RingBuffer.new : RingBuffer Nat)
      [Op.push 1, Op.push 2, Op.push 3, Op.pop, Op.push 4, Op.push 5]) 4 =
      [none, none, none, none] := by
  decide

/-- C4 (code_bug evaluation): the `BufferedStream.read` scenario fails.
On a fresh `BufStream` over the fake transport queued with `b"hello"`
then `b" world"`, the input ring is empty (`read = write = 0`, capacity
2), so `spare_capacity_mut` reports two zero-length views, `buffer_read`
passes zero regions to the transport (the transport is never read), and
`read_into` — whose `as_mut_slices` wrongly reports the whole allocation
as occupied when `read = write` — copies 2 uninitialized slots: `read`
into a 3-byte destination returns `Ok(2)` with uninitialized bytes and
leaves the transport untouched, instead of the claimed `Ok(3)` with
`"hel"`. -/
theorem c4_buffered_read_scenario_code_bug :
    ((BufStream.new { chunks := [hello_chunk, world_chunk] }).read 3).2.1 = 2 ∧
    ((BufStream.new { chunks := [hello_chunk, world_chunk] }).read 3).1 =
      [none, none] ∧
    ((BufStream.new { chunks := [hello_chunk, world_chunk] }).read
      3).2.2.stream.chunks = [hello_chunk, world_chunk] := by
  decide

/-- C5: for every sequence of push/pop operations from a fresh buffer, the
reported length plus the number of pops that returned an element never
exceeds the number of pushes (so `len` never exceeds pushes minus
element-returning pops), and at the resulting state (every reachable
state is of this form for some prefix) `empty()` holds exactly when
`len() = 0` and `full()` holds exactly when `len() = capacity - 1`
(`Nat` subtraction; at capacity 0 both sides are 0). -/
theorem c5_len_bound_and_empty_full_agree (α : Type) (ops : List (Op α)) :
    (runOps (RingBuffer.new : RingBuffer α) ops).len +
      countPops RingBuffer.new ops ≤ countPushes ops ∧
    ((runOps (RingBuffer.new : RingBuffer α) ops).empty = true ↔
      (runOps (RingBuffer.new : RingBuffer α) ops).len = 0) ∧
    ((runOps (RingBuffer.new : RingBuffer α) ops).full = true ↔
      (runOps (RingBuffer.new : RingBuffer α) ops).len =
        (runOps (RingBuffer.new : RingBuffer α) ops).capacity - 1) := by
  obtain ⟨hwf, hb⟩ := runOps_spec ops RingBuffer.new wf_new
  refine ⟨?_, empty_iff_len _ hwf, full_iff_len _ hwf⟩
  have h0 : (RingBuffer.new : RingBuffer α).len = 0 := rfl
  omega

/-- C6 (counterexample): `get`/`get_mut` do not return an absent result
for an index outside the occupied range — the source only checks
emptiness.  On a capacity-4 buffer of length 1, `get 2` (index well
outside `[0, len)`) still returns a present result (of an uninitialized
slot). -/
theorem c6_no_bounds_check_counterexample :
    ((RingBuffer.with_capacity Nat 3).push 10).len = 1 ∧
    ((RingBuffer.with_capacity Nat 3).push 10).get 2 ≠ none ∧
    ((RingBuffer.with_capacity Nat 3).push 10).get_mut 2 ≠ none := by
  decide

/-- C6 (amended): `get index`/`get_mut index` return an absent result
exactly when the buffer is empty (no bounds check against `len()` is
performed); on a non-empty buffer any index yields the slot
`(read + index) & mask`, which for `index < len()` is the element `index`
positions past the read cursor, index 0 being (on a well-formed state)
the value `pop` would return. -/
theorem c6_get_amended (α : Type) (s : RingBuffer α) (index : Nat) :
    (s.get index = none ↔ s.empty = true) ∧
    s.get_mut index = s.get index ∧
    (s.empty = false → index < s.len → s.get index = (s.toList)[index]?) ∧
    (Wf s → s.empty = false → (s.pop).1 = s.get 0) := by
  refine ⟨?_, rfl, ?_, ?_⟩
  · unfold RingBuffer.get
    cases he : s.empty with
    | true => simp
    | false => simp
  · intro he hidx
    unfold RingBuffer.get RingBuffer.toList
    rw [he]
    rw [List.getElem?_map, List.getElem?_range hidx]
    simp
  · intro wf he
    have h := (pop_spec s wf).2.2 he
    rw [h.1]
    obtain ⟨-, hcases⟩ := wf
    rcases hcases with ⟨hc0, hr, hw⟩ | ⟨hpow, hr, hw⟩
    · simp [RingBuffer.empty, hr, hw] at he
    · have hpow' : ∃ k, s.capacity = 2 ^ k := by
        obtain ⟨k, hk, h'⟩ := hpow; exact ⟨k, h'⟩
      have hmask : (s.read + 0) &&& s.mask = s.read := by
        show s.read + 0 &&& (s.capacity - 1) = s.read
        rw [Nat.add_zero, and_mask_of_pow hpow', Nat.mod_eq_of_lt hr]
      unfold RingBuffer.get RingBuffer.read_ptr
      rw [he, hmask]
      simp

/-- C6 witness: the amended theorem applied at a concrete non-empty
state and index 0. -/
theorem c6_get_amended_witness :
    ((RingBuffer.with_capacity Nat 3).push 10).get 0 =
      (((RingBuffer.with_capacity Nat 3).push 10).toList)[0]? ∧
    ((((RingBuffer.with_capacity Nat 3).push 10).pop)).1 =
      ((RingBuffer.with_capacity Nat 3).push 10).get 0 := by
  refine ⟨(c6_get_amended Nat ((RingBuffer.with_capacity Nat 3).push 10) 0).2.2.1
    (by decide) (by decide), ?_⟩
  refine (c6_get_amended Nat ((RingBuffer.with_capacity Nat 3).push 10) 0).2.2.2
    ⟨by decide, Or.inr ⟨⟨2, by decide, by decide⟩, by decide, by decide⟩⟩ (by decide)

/-- C7 (code_bug evaluation): `new()` indeed has capacity 0, but
`with_capacity n` cannot hold `n` elements without further allocation
when `n` is a power of two of at least 2: `with_capacity 2` allocates
exactly 2 slots, is already full after one push (the sentinel slot eats
one of the 2), and the second push reallocates to capacity 4 —
contradicting the claim (and `with_capacity`'s own documentation) that
the buffer has room for at least `n = 2` elements. -/
theorem c7_with_capacity_code_bug :
    (RingBuffer.new : RingBuffer Nat).capacity = 0 ∧
    (RingBuffer.with_capacity Nat 2).capacity = 2 ∧
    ((RingBuffer.with_capacity Nat 2).push 1).full = true ∧
    (((RingBuffer.with_capacity Nat 2).push 1).push 2).capacity = 4 := by
  decide

/-- C8 (counterexample): the default vectored read does not short-circuit
on a partial fill.  With a reader whose first read returns only 1 byte
into a 3-byte region (a partial fill) and whose second read returns 2
bytes, the default implementation still issues the second read and
returns 3 with the reader fully consumed, whereas the claim predicts it
stops after the partial fill and returns 1 with the second chunk still
queued. -/
theorem c8_no_short_circuit_counterexample :
    read_vectored_default sized_read [1, 2] [3, 2] =
      Except.ok (3, ([] : List Nat)) ∧
    read_vectored_default sized_read [1, 2] [3, 2] ≠
      Except.ok (1, ([2] : List Nat)) := by
  refine ⟨rfl, fun h => ?_⟩
  have h2 : (Except.ok (3, ([] : List Nat)) : Except Unit (Nat × List Nat)) =
      Except.ok (1, ([2] : List Nat)) := h
  simp at h2

/-- C8 (amended): the default vectored read performs sequential single
reads into every destination region in order — with no short-circuit on a
partial fill, stopping early only when a read fails — and returns the sum
of the per-region counts: for an infallible reader it coincides with
unconditionally reading each region in sequence. -/
theorem c8_read_vectored_amended (σ ε : Type) (f : σ → Nat → Nat × σ)
    (s : σ) (regions : List Nat) :
    read_vectored_default (fun u n => (Except.ok (f u n) : Except ε (Nat × σ)))
      s regions = Except.ok (seq_read_all f s regions) := by
  induction regions generalizing s with
  | nil => rfl
  | cons n rest ih =>
    rcases hfs : f s n with ⟨k, s2⟩
    simp [read_vectored_default, seq_read_all, hfs, ih]

/-- C9: on every reachable state, `pop` on an empty buffer returns an
absent result and leaves the state unchanged; on a non-empty buffer it
returns the content of the slot at the read cursor by value, advances the
read cursor by one (masked), and decreases `len` by exactly one. -/
theorem c9_pop_contract (α : Type) (s : RingBuffer α) (h : Reachable s) :
    (s.empty = true → s.pop = (none, s)) ∧
    (s.empty = false →
      (s.pop).1 = some (s.cell s.read) ∧
      (s.pop).2.read = (s.read + 1) &&& s.mask ∧
      (s.pop).2.len + 1 = s.len) := by
  have wf := wf_reachable h
  obtain ⟨-, hemp, hne⟩ := pop_spec s wf
  exact ⟨hemp, fun he =>
    ⟨(hne he).1, (hne he).2.1, (hne he).2.2.2.2.2⟩⟩

/-- C9 witness: the contract applied to the reachable state obtained by
pushing 5 onto a fresh buffer. -/
theorem c9_pop_contract_witness :
    ((RingBuffer.new.push 5 : RingBuffer Nat).pop).1 =
      some ((RingBuffer.new.push 5 : RingBuffer Nat).cell
        (RingBuffer.new.push 5 : RingBuffer Nat).read) ∧
    ((RingBuffer.new.push 5 : RingBuffer Nat).pop).2.len + 1 =
      (RingBuffer.new.push 5 : RingBuffer Nat).len := by
  have h := (c9_pop_contract Nat (RingBuffer.new.push 5)
    (Reachable.push 5 Reachable.new_)).2 (by decide)
  exact ⟨h.1, h.2.2⟩

/-- C10 (counterexample): the last conjunct of the claim fails — a first
`read` on a freshly constructed stream does not return `Ok(0)`: with a
3-byte destination it returns `Ok(2)` (copying two uninitialized slots),
because `as_mut_slices` reports the whole allocation as occupied when
`read = write`. -/
theorem c10_first_read_counterexample :
    ((BufStream.new { chunks := [[1, 2, 3]] }).read 3).2.1 = 2 ∧ (2 : Nat) ≠ 0 := by
  decide

/-- C10 (amended): on every empty buffer (`read = write`)
`spare_capacity_mut` returns two zero-length views regardless of
capacity; consequently `buffer_read` on an empty, non-full input ring
passes zero regions to the transport's vectored read and leaves the
transport untouched; but a first `read destLen` on a freshly constructed
stream returns `min destLen 2` (uninitialized bytes) rather than 0, and
still obtains nothing from the transport. -/
theorem c10_empty_spare_amended :
    (∀ (α : Type) (s : RingBuffer α), s.read = s.write →
      (s.spare_capacity_mut).1.2 = 0 ∧ (s.spare_capacity_mut).2.2 = 0) ∧
    (∀ b : BufStream, b.input.read = b.input.write → b.input.full = false →
      BufStream.spare_parts b.input = 0 ∧ (b.buffer_read).stream = b.stream) ∧
    (∀ (t : FakeStream) (destLen : Nat),
      ((BufStream.new t).read destLen).2.1 = min destLen 2 ∧
      ((BufStream.new t).read destLen).2.2.stream = t) := by
  refine ⟨?_, ?_, ?_⟩
  · intro α s h
    unfold RingBuffer.spare_capacity_mut
    rw [if_neg (by omega)]
    simp [h]
  · intro b h hf
    have hsp : b.input.spare_capacity_mut = ((b.input.write, 0), (0, 0)) := by
      unfold RingBuffer.spare_capacity_mut
      rw [if_neg (by omega)]
      simp [h]
    have hparts : BufStream.spare_parts b.input = 0 := by
      unfold BufStream.spare_parts
      rw [hsp]
      rfl
    refine ⟨hparts, ?_⟩
    unfold BufStream.buffer_read
    rw [hf]
    simp only [Bool.false_eq_true, if_false, hparts, List.take_zero]
    rfl
  · intro t destLen
    constructor
    · show (BufStream.read_into ((BufStream.new t).buffer_read) destLen).2.1 =
        min destLen 2
      rw [buffer_read_new t]
      show min destLen 2 + min (destLen - min destLen 2) 0 = min destLen 2
      simp
    · show (BufStream.read_into ((BufStream.new t).buffer_read) destLen).2.2.stream = t
      rw [buffer_read_new t]
      rfl

/-- C10 witness: the amended theorem applied at a concrete empty ring, a
concrete stream state, and a concrete first read. -/
theorem c10_empty_spare_amended_witness :
    (((RingBuffer.with_capacity Nat 8).spare_capacity_mut).1.2 = 0 ∧
      ((RingBuffer.with_capacity Nat 8).spare_capacity_mut).2.2 = 0) ∧
    ((BufStream.new { chunks := [[7]] }).read 4).2.1 = min 4 2 := by
  exact ⟨c10_empty_spare_amended.1 Nat (RingBuffer.with_capacity Nat 8) rfl,
    (c10_empty_spare_amended.2.2 { chunks := [[7]] } 4).1⟩


end Circulate
